import Mathlib

/-!
Verification of `utils.py` from CycleGAN-PyTorch.

The file embeds the training-loop helpers of the repository (checkpoint
weight remapping, checkpoint saving, the replay buffer, the linear decay
schedule and the running-average meter) as executable Lean definitions and
proves the specification claims about them.

Conventions of the embedding:
* a tensor is abstracted to its shape (`size` in the source, read only
  through `v.size()`) together with an opaque identifier for its contents;
* a `state_dict` (Python `OrderedDict`) is an association list whose
  insertion operation replaces in place when the key exists and appends
  otherwise, exactly as `OrderedDict.__setitem__` does;
* Python `raise` is `Except.error`;
* Python float arithmetic on results of integer expressions is modelled
  over `ℚ`;
* the two random draws of `ReplayBuffer.push_and_pop`
  (`random.uniform(0, 1) > 0.5` and `random.randint(0, max_size - 1)`) are
  modelled by an oracle `ℕ → Bool × ℕ` consulted once per at-capacity
  element, together with the position of the next unconsumed draw.
-/

deriving instance DecidableEq for Except

/-- A tensor, abstracted to its shape (the only attribute `load_state_dict`
reads, via `v.size()`) plus an opaque content identifier used to tell
source values from target values. -/
structure Tensor where
  size : List Nat
  vals : Nat
deriving DecidableEq

/-- A model state dict: an ordered association list from keys to tensors. -/
abbrev StateDict : Type := List (String × Tensor)

/-- Lookup of the first entry with the given key (`d[k]` / `k in d`). -/
def dlookup (d : StateDict) (k : String) : Option Tensor :=
  match d with
  | [] => none
  | (k1, v1) :: rest => if k1 = k then some v1 else dlookup rest k

/-- OrderedDict assignment `d[k] = v`: replace the value in place when the
key is present, append the pair otherwise. -/
def odInsert (d : StateDict) (k : String) (v : Tensor) : StateDict :=
  match d with
  | [] => [(k, v)]
  | (k1, v1) :: rest => if k1 = k then (k1, v) :: rest else (k1, v1) :: odInsert rest k v

/-- Python `d.update(items)`: assign every pair of `items` into `d` in order. -/
def dictUpdate (d : StateDict) (items : List (String × Tensor)) : StateDict :=
  items.foldl (fun acc p => odInsert acc p.1 p.2) d

/-- The compilation status keyword of `load_state_dict`
(`compile_state = "_orig_mod"`). -/
def compileState : String := "_orig_mod"

/-- First dot-separated token of a key: Python `k.split(".")[0]`. -/
def keyHead (k : String) : String :=
  String.mk (k.data.takeWhile (fun c => c ≠ '.'))

/-- Python `k[10:]`: drop the first `n` characters of a string. -/
def strDrop (k : String) (n : Nat) : String :=
  String.mk (k.data.drop n)

/-- The renaming of one key inside the loop of `load_state_dict`
(the `if/elif/else` computing `name` at lines 63-68 of `utils.py`). -/
def renameKey (compile_mode : Bool) (k : String) : String :=
  if compile_mode = true ∧ keyHead k ≠ compileState then compileState ++ "." ++ k
  else if compile_mode = false ∧ keyHead k = compileState then strDrop k 10
  else k

/-- The error raised when `compile_mode` is set but a key lacks the marker. -/
def compileErrMsg : String :=
  "The model is not compiled. Please use `model = torch.compile(model)`."

/-- The per-key loop of `load_state_dict` (lines 57-69 of `utils.py`):
check the compilation marker, rename, and assign into `new_state_dict`. -/
def processItems (compile_mode : Bool) (items : List (String × Tensor)) (acc : StateDict) :
    Except String StateDict :=
  match items with
  | [] => Except.ok acc
  | (k, v) :: rest =>
    if compile_mode = true ∧ keyHead k ≠ compileState then Except.error compileErrMsg
    else processItems compile_mode rest (odInsert acc (renameKey compile_mode k) v)

/-- The body of `load_state_dict` from `utils.py`: rename the source keys,
keep only entries whose key exists in the target with an equal shape, merge
them over the target's current values and return the merged state. The
model argument is represented by its own state dict `model_state_dict`. -/
def load_state_dict (model_state_dict : StateDict) (compile_mode : Bool)
    (state_dict : StateDict) : Except String StateDict :=
  match processItems compile_mode state_dict [] with
  | Except.error e => Except.error e
  | Except.ok renamed =>
    let new_state_dict := renamed.filter (fun p =>
      match dlookup model_state_dict p.1 with
      | some t => p.2.size == t.size
      | none => false)
    Except.ok (dictUpdate model_state_dict new_state_dict)

/-- The `DecayLR` schedule of `utils.py`: fields stored by `__init__`. -/
structure DecayLR where
  epochs : ℤ
  offset : ℤ
  decay_epochs : ℤ
deriving DecidableEq

/-- `DecayLR.__init__`: assert `epochs - decay_epochs > 0`, then store. -/
def DecayLR.init (epochs offset decay_epochs : ℤ) : Except String DecayLR :=
  if epochs - decay_epochs > 0 then
    Except.ok { epochs := epochs, offset := offset, decay_epochs := decay_epochs }
  else Except.error "Decay must start before the training session ends!"

/-- `DecayLR.step`: `1.0 - max(0, epoch + offset - decay_epochs) / (epochs - decay_epochs)`. -/
def DecayLR.step (d : DecayLR) (epoch : ℤ) : ℚ :=
  1 - ((max 0 (epoch + d.offset - d.decay_epochs) : ℤ) : ℚ) / ((d.epochs - d.decay_epochs : ℤ) : ℚ)

/-- The `ReplayBuffer` of `utils.py`: capacity and stored samples. One
stored sample (a single-element tensor slice) is abstracted to a value of
the element type `α`. -/
structure ReplayBuffer (α : Type) where
  max_size : ℤ
  data : List α

/-- `ReplayBuffer.__init__`: assert `max_size > 0`, then store capacity and
an empty sample list. -/
def ReplayBuffer.init (α : Type) (max_size : ℤ) : Except String (ReplayBuffer α) :=
  if max_size > 0 then Except.ok { max_size := max_size, data := [] }
  else Except.error "Empty buffer or trying to create a black hole. Be careful."

/-- The per-element loop of `ReplayBuffer.push_and_pop`. `rng i` delivers
the `i`-th pair of random draws `(uniform(0,1) > 0.5, randint(0, max_size-1))`,
consumed only when the buffer is at capacity; `randint` keeps the slot in
`[0, max_size-1]`, so the `getD` default (used only out of that range) is
never reached on the source's executions. Returns the emitted samples in
input order and the final stored list. -/
def push_and_pop_aux (max_size : ℤ) (rng : ℕ → Bool × ℕ) :
    List α → List α → ℕ → List α × List α
  | stored, [], _ => ([], stored)
  | stored, x :: rest, i =>
    if (stored.length : ℤ) < max_size then
      let r := push_and_pop_aux max_size rng (stored ++ [x]) rest i
      (x :: r.1, r.2)
    else
      let draw := rng i
      if draw.1 then
        let r := push_and_pop_aux max_size rng (stored.set draw.2 x) rest (i + 1)
        (stored.getD draw.2 x :: r.1, r.2)
      else
        let r := push_and_pop_aux max_size rng stored rest (i + 1)
        (x :: r.1, r.2)

/-- `ReplayBuffer.push_and_pop`: process each input sample in order, and
return the concatenated emitted samples with the updated buffer. -/
def ReplayBuffer.push_and_pop (b : ReplayBuffer α) (rng : ℕ → Bool × ℕ)
    (batch : List α) (i : ℕ) : List α × ReplayBuffer α :=
  let r := push_and_pop_aux b.max_size rng b.data batch i
  (r.1, { max_size := b.max_size, data := r.2 })

/-- A filesystem effect of `save_checkpoint`: a `torch.save` write or a
`shutil.copyfile` copy. -/
inductive FsOp where
  | write (path : String)
  | copy (src dst : String)
deriving DecidableEq

/-- Abstraction of `os.path.join` for the relative file names used here. -/
def pathJoin (a b : String) : String := a ++ "/" ++ b

/-- `save_checkpoint` from `utils.py`, modelled as the ordered list of
filesystem effects it performs: write the state to
`samples_dir/file_name`, then copy it to the best and last slots when the
corresponding flags are set. -/
def save_checkpoint (file_name samples_dir results_dir best_file_name last_file_name : String)
    (is_best is_last : Bool) : List FsOp :=
  let checkpoint_path := pathJoin samples_dir file_name
  [FsOp.write checkpoint_path]
    ++ (if is_best then [FsOp.copy checkpoint_path (pathJoin results_dir best_file_name)] else [])
    ++ (if is_last then [FsOp.copy checkpoint_path (pathJoin results_dir last_file_name)] else [])

/-- The `AverageMeter` accumulator state (`name`, `fmt` and the summary
kind play no role in the claims and are omitted). Values are modelled
over `ℚ`, the occurrence count over `ℤ` as in Python. -/
structure AverageMeter where
  val : ℚ
  avg : ℚ
  sum : ℚ
  count : ℤ
deriving DecidableEq

/-- `AverageMeter.reset`: zero every statistic. -/
def AverageMeter.reset (_ : AverageMeter) : AverageMeter :=
  { val := 0, avg := 0, sum := 0, count := 0 }

/-- `AverageMeter.update(val, n)`: set `val`, add `val*n` to `sum`, add `n`
to `count` and recompute `avg = sum / count`; Python raises
`ZeroDivisionError` when the updated count is zero. -/
def AverageMeter.update (m : AverageMeter) (val : ℚ) (n : ℤ) : Except String AverageMeter :=
  let sum := m.sum + val * (n : ℚ)
  let count := m.count + n
  if count = 0 then Except.error "ZeroDivisionError: division by zero"
  else Except.ok { val := val, avg := sum / (count : ℚ), sum := sum, count := count }

/-- C6: construction of `DecayLR` fails whenever `decay_epochs >= epochs`
(in particular for `epochs = 10, decay_epochs = 10`), and succeeds, storing
the three arguments, whenever `decay_epochs < epochs`. -/
theorem decaylr_init_spec (epochs offset decay_epochs : ℤ) :
    (epochs ≤ decay_epochs → DecayLR.init epochs offset decay_epochs =
      Except.error "Decay must start before the training session ends!") ∧
    (decay_epochs < epochs → DecayLR.init epochs offset decay_epochs =
      Except.ok ⟨epochs, offset, decay_epochs⟩) := by
  constructor
  · intro h
    unfold DecayLR.init
    rw [if_neg (by omega)]
  · intro h
    unfold DecayLR.init
    rw [if_pos (by omega)]

theorem decaylr_init_spec_witness :
    ((10 : ℤ) ≤ 10 ∧ DecayLR.init 10 0 10 =
      Except.error "Decay must start before the training session ends!") ∧
    ((9 : ℤ) < 10 ∧ DecayLR.init 10 0 9 = Except.ok ⟨10, 0, 9⟩) :=
  ⟨⟨by decide, (decaylr_init_spec 10 0 10).1 (by decide)⟩,
   ⟨by decide, (decaylr_init_spec 10 0 9).2 (by decide)⟩⟩

/-- C7: construction of `ReplayBuffer` fails for every `max_size ≤ 0`
(in particular for `max_size = 0`), and succeeds, with an empty initial
sample list, for every `max_size > 0`. -/
theorem replaybuffer_init_spec (α : Type) (max_size : ℤ) :
    (max_size ≤ 0 → ReplayBuffer.init α max_size =
      Except.error "Empty buffer or trying to create a black hole. Be careful.") ∧
    (0 < max_size → ReplayBuffer.init α max_size = Except.ok ⟨max_size, []⟩) := by
  constructor
  · intro h
    unfold ReplayBuffer.init
    rw [if_neg (by omega)]
  · intro h
    unfold ReplayBuffer.init
    rw [if_pos (by omega)]

theorem replaybuffer_init_spec_witness :
    ((0 : ℤ) ≤ 0 ∧ ReplayBuffer.init ℕ 0 =
      Except.error "Empty buffer or trying to create a black hole. Be careful.") ∧
    ((0 : ℤ) < 2 ∧ ReplayBuffer.init ℕ 2 = Except.ok ⟨2, []⟩) :=
  ⟨⟨by decide, (replaybuffer_init_spec ℕ 0).1 (by decide)⟩,
   ⟨by decide, (replaybuffer_init_spec ℕ 2).2 (by decide)⟩⟩

/-- C9: `AverageMeter.update(val, n)` sets `val`, adds `val*n` to `sum`,
adds `n` to `count` and sets `avg` to `sum/count`; starting from `reset`,
`update(4,1)` followed by `update(2,1)` leaves `avg = 3`, `sum = 6`,
`count = 2` (and `val = 2`). -/
theorem averagemeter_update_spec :
    (∀ (m : AverageMeter) (v : ℚ) (n : ℤ), m.count + n ≠ 0 →
      m.update v n = Except.ok
        ⟨v, (m.sum + v * (n : ℚ)) / ((m.count + n : ℤ) : ℚ), m.sum + v * (n : ℚ), m.count + n⟩) ∧
    (∀ m : AverageMeter,
      (m.reset.update 4 1).bind (fun m1 => m1.update 2 1) = Except.ok ⟨2, 3, 6, 2⟩) := by
  constructor
  · intro m v n h
    unfold AverageMeter.update
    rw [if_neg h]
  · intro m
    simp only [AverageMeter.reset, AverageMeter.update]
    norm_num [Except.bind]

theorem averagemeter_update_spec_witness :
    ((0 : ℤ) + 1 ≠ 0 ∧ AverageMeter.update ⟨0, 0, 0, 0⟩ 4 1 = Except.ok
      ⟨4, ((0 : ℚ) + 4 * ((1 : ℤ) : ℚ)) / (((0 : ℤ) + 1 : ℤ) : ℚ),
        (0 : ℚ) + 4 * ((1 : ℤ) : ℚ), (0 : ℤ) + 1⟩) ∧
    ((AverageMeter.reset ⟨1, 1, 1, 1⟩).update 4 1).bind (fun m1 => m1.update 2 1) =
      Except.ok ⟨2, 3, 6, 2⟩ :=
  ⟨⟨by decide, averagemeter_update_spec.1 ⟨0, 0, 0, 0⟩ 4 1 (by decide)⟩,
   averagemeter_update_spec.2 ⟨1, 1, 1, 1⟩⟩

/-- C8: `save_checkpoint` always writes the primary file
`samples_dir/file_name` first; with `is_best` and not `is_last` it adds
exactly the best copy, with neither flag it writes only the primary file,
and the two copy actions fire independently, with no other effects. -/
theorem save_checkpoint_spec (fn sd rd bfn lfn : String) (is_best is_last : Bool) :
    ((save_checkpoint fn sd rd bfn lfn is_best is_last).head? =
        some (FsOp.write (pathJoin sd fn))) ∧
    (is_best = true → is_last = false → save_checkpoint fn sd rd bfn lfn is_best is_last =
      [FsOp.write (pathJoin sd fn), FsOp.copy (pathJoin sd fn) (pathJoin rd bfn)]) ∧
    (is_best = false → is_last = false → save_checkpoint fn sd rd bfn lfn is_best is_last =
      [FsOp.write (pathJoin sd fn)]) ∧
    (is_best = true → is_last = true → save_checkpoint fn sd rd bfn lfn is_best is_last =
      [FsOp.write (pathJoin sd fn), FsOp.copy (pathJoin sd fn) (pathJoin rd bfn),
        FsOp.copy (pathJoin sd fn) (pathJoin rd lfn)]) ∧
    (is_best = false → is_last = true → save_checkpoint fn sd rd bfn lfn is_best is_last =
      [FsOp.write (pathJoin sd fn), FsOp.copy (pathJoin sd fn) (pathJoin rd lfn)]) := by
  cases is_best <;> cases is_last <;> simp [save_checkpoint]

theorem save_checkpoint_spec_witness :
    save_checkpoint "g.pth" "samples" "results" "best.pth" "last.pth" true false =
      [FsOp.write (pathJoin "samples" "g.pth"),
        FsOp.copy (pathJoin "samples" "g.pth") (pathJoin "results" "best.pth")] :=
  (save_checkpoint_spec "g.pth" "samples" "results" "best.pth" "last.pth" true false).2.1
    rfl rfl

/-- C4: for every successful construction (so `decay_epochs < epochs`),
`step epoch` equals `1 - max(0, epoch + offset - decay_epochs) /
(epochs - decay_epochs)`; it equals 1 while `epoch + offset ≤ decay_epochs`,
strictly decreases from the decay boundary onwards (including past the
zero), and equals 0 exactly when `epoch + offset = epochs`. -/
theorem decaylr_step_spec (epochs offset decay_epochs : ℤ) (dl : DecayLR)
    (h : DecayLR.init epochs offset decay_epochs = Except.ok dl) :
    (∀ e : ℤ, dl.step e =
      1 - ((max 0 (e + offset - decay_epochs) : ℤ) : ℚ) / ((epochs - decay_epochs : ℤ) : ℚ)) ∧
    (∀ e : ℤ, e + offset ≤ decay_epochs → dl.step e = 1) ∧
    (∀ e1 e2 : ℤ, decay_epochs ≤ e1 + offset → e1 < e2 → dl.step e2 < dl.step e1) ∧
    (∀ e : ℤ, dl.step e = 0 ↔ e + offset = epochs) := by
  unfold DecayLR.init at h
  by_cases hpos : epochs - decay_epochs > 0
  swap
  · rw [if_neg hpos] at h
    exact absurd h (by simp)
  rw [if_pos hpos] at h
  injection h with h2
  subst h2
  have hq : (0 : ℚ) < ((epochs - decay_epochs : ℤ) : ℚ) := by exact_mod_cast hpos
  refine ⟨fun e => rfl, ?_, ?_, ?_⟩
  · intro e he
    simp only [DecayLR.step]
    rw [max_eq_left (by omega : e + offset - decay_epochs ≤ 0)]
    norm_num
  · intro e1 e2 h1 h12
    simp only [DecayLR.step]
    rw [max_eq_right (by omega : (0 : ℤ) ≤ e1 + offset - decay_epochs),
      max_eq_right (by omega : (0 : ℤ) ≤ e2 + offset - decay_epochs)]
    have hlt : ((e1 + offset - decay_epochs : ℤ) : ℚ) < ((e2 + offset - decay_epochs : ℤ) : ℚ) := by
      exact_mod_cast (by omega : e1 + offset - decay_epochs < e2 + offset - decay_epochs)
    exact sub_lt_sub_left ((div_lt_div_iff_of_pos_right hq).mpr hlt) 1
  · intro e
    simp only [DecayLR.step]
    constructor
    · intro h0
      have h1 : ((max 0 (e + offset - decay_epochs) : ℤ) : ℚ) /
          ((epochs - decay_epochs : ℤ) : ℚ) = 1 := by linarith
      have hq0 : ((epochs - decay_epochs : ℤ) : ℚ) ≠ 0 := ne_of_gt hq
      have h2 : ((max 0 (e + offset - decay_epochs) : ℤ) : ℚ) =
          ((epochs - decay_epochs : ℤ) : ℚ) := by
        have h2a := (div_eq_iff hq0).mp h1
        rw [one_mul] at h2a
        exact h2a
      have h3 : max 0 (e + offset - decay_epochs) = epochs - decay_epochs := by
        exact_mod_cast h2
      rcases le_total (e + offset - decay_epochs) 0 with hle | hge
      · rw [max_eq_left hle] at h3
        omega
      · rw [max_eq_right hge] at h3
        omega
    · intro he
      rw [max_eq_right (by omega : (0 : ℤ) ≤ e + offset - decay_epochs),
        (by omega : e + offset - decay_epochs = epochs - decay_epochs),
        div_self (ne_of_gt hq)]
      norm_num

theorem decaylr_step_spec_witness :
    (DecayLR.init 10 0 5 = Except.ok ⟨10, 0, 5⟩) ∧
    ((∀ e : ℤ, DecayLR.step ⟨10, 0, 5⟩ e =
        1 - ((max 0 (e + 0 - 5) : ℤ) : ℚ) / (((10 : ℤ) - 5 : ℤ) : ℚ)) ∧
      (∀ e : ℤ, e + 0 ≤ 5 → DecayLR.step ⟨10, 0, 5⟩ e = 1) ∧
      (∀ e1 e2 : ℤ, 5 ≤ e1 + 0 → e1 < e2 →
        DecayLR.step ⟨10, 0, 5⟩ e2 < DecayLR.step ⟨10, 0, 5⟩ e1) ∧
      (∀ e : ℤ, DecayLR.step ⟨10, 0, 5⟩ e = 0 ↔ e + 0 = 10)) :=
  ⟨by decide, decaylr_step_spec 10 0 5 ⟨10, 0, 5⟩ (by decide)⟩

/-- Helper for C5: the loop of `push_and_pop` emits one sample per input
sample and never grows the stored list past `max_size`. -/
theorem push_and_pop_aux_length {α : Type} (max_size : ℤ) (rng : ℕ → Bool × ℕ)
    (batch : List α) :
    ∀ (stored : List α) (i : ℕ), (stored.length : ℤ) ≤ max_size →
      (push_and_pop_aux max_size rng stored batch i).1.length = batch.length ∧
      ((push_and_pop_aux max_size rng stored batch i).2.length : ℤ) ≤ max_size := by
  induction batch with
  | nil =>
    intro stored i h
    exact ⟨rfl, h⟩
  | cons x rest ih =>
    intro stored i h
    by_cases hc : (stored.length : ℤ) < max_size
    · have hlen : (((stored ++ [x]).length : ℕ) : ℤ) ≤ max_size := by
        rw [List.length_append, List.length_singleton]
        push_cast
        omega
      have ih1 := ih (stored ++ [x]) i hlen
      simp only [push_and_pop_aux, if_pos hc, List.length_cons]
      exact ⟨by rw [ih1.1], ih1.2⟩
    · by_cases hd : (rng i).1 = true
      · have hlen : ((stored.set (rng i).2 x).length : ℤ) ≤ max_size := by
          rw [List.length_set]
          exact h
        have ih1 := ih (stored.set (rng i).2 x) (i + 1) hlen
        simp only [push_and_pop_aux, if_neg hc, if_pos hd, List.length_cons]
        exact ⟨by rw [ih1.1], ih1.2⟩
      · have ih1 := ih stored (i + 1) h
        simp only [push_and_pop_aux, if_neg hc, if_neg hd, List.length_cons]
        exact ⟨by rw [ih1.1], ih1.2⟩

/-- C5: for a buffer of positive capacity holding at most `max_size`
samples, `push_and_pop` returns exactly one emitted sample per input
sample, and afterwards the buffer again holds at most `max_size` samples
with the capacity unchanged, so the bound is preserved across any sequence
of calls. -/
theorem replaybuffer_push_and_pop_spec {α : Type} (b : ReplayBuffer α) (rng : ℕ → Bool × ℕ)
    (batch : List α) (i : ℕ) (_hpos : 0 < b.max_size)
    (hlen : (b.data.length : ℤ) ≤ b.max_size) :
    (b.push_and_pop rng batch i).1.length = batch.length ∧
    (((b.push_and_pop rng batch i).2.data.length : ℤ) ≤ b.max_size ∧
      (b.push_and_pop rng batch i).2.max_size = b.max_size) := by
  unfold ReplayBuffer.push_and_pop
  have h := push_and_pop_aux_length b.max_size rng batch b.data i hlen
  exact ⟨h.1, h.2, rfl⟩

theorem replaybuffer_push_and_pop_spec_witness :
    ((0 : ℤ) < 2 ∧ (([] : List ℕ).length : ℤ) ≤ 2) ∧
    ((ReplayBuffer.push_and_pop ⟨2, []⟩ (fun _ => (true, 0)) [0, 1, 2, 3, 4] 0).1.length =
        ([0, 1, 2, 3, 4] : List ℕ).length ∧
      (((ReplayBuffer.push_and_pop ⟨2, ([] : List ℕ)⟩ (fun _ => (true, 0))
            [0, 1, 2, 3, 4] 0).2.data.length : ℤ) ≤ 2 ∧
        (ReplayBuffer.push_and_pop ⟨2, ([] : List ℕ)⟩ (fun _ => (true, 0))
            [0, 1, 2, 3, 4] 0).2.max_size = 2)) :=
  ⟨⟨by decide, by decide⟩,
    replaybuffer_push_and_pop_spec ⟨2, []⟩ (fun _ => (true, 0)) [0, 1, 2, 3, 4] 0
      (by decide) (by decide)⟩

/-- C3: the renaming step prepends the marker when `compile_mode` is set
and the key's first dot-separated token differs from it, strips the first
10 characters when `compile_mode` is unset and the token equals the
marker, and keeps the key unchanged otherwise. -/
theorem renamekey_spec (compile_mode : Bool) (k : String) :
    (compile_mode = true → keyHead k ≠ compileState →
      renameKey compile_mode k = compileState ++ "." ++ k) ∧
    (compile_mode = false → keyHead k = compileState →
      renameKey compile_mode k = strDrop k 10) ∧
    (¬(compile_mode = true ∧ keyHead k ≠ compileState) →
      ¬(compile_mode = false ∧ keyHead k = compileState) →
      renameKey compile_mode k = k) := by
  refine ⟨?_, ?_, ?_⟩
  · intro h1 h2
    unfold renameKey
    rw [if_pos ⟨h1, h2⟩]
  · intro h1 h2
    unfold renameKey
    rw [if_neg (by simp [h1]), if_pos ⟨h1, h2⟩]
  · intro h1 h2
    unfold renameKey
    rw [if_neg h1, if_neg h2]

theorem renamekey_spec_witness :
    (true = true ∧ keyHead "w.b" ≠ compileState ∧
      renameKey true "w.b" = compileState ++ "." ++ "w.b") ∧
    (false = false ∧ keyHead "_orig_mod.w" = compileState ∧
      renameKey false "_orig_mod.w" = strDrop "_orig_mod.w" 10) ∧
    (¬(false = true ∧ keyHead "w.b" ≠ compileState) ∧
      ¬(false = false ∧ keyHead "w.b" = compileState) ∧
      renameKey false "w.b" = "w.b") :=
  ⟨⟨rfl, by decide, (renamekey_spec true "w.b").1 rfl (by decide)⟩,
   ⟨rfl, by decide, (renamekey_spec false "_orig_mod.w").2.1 rfl (by decide)⟩,
   ⟨by decide, by decide, (renamekey_spec false "w.b").2.2 (by decide) (by decide)⟩⟩

/-- Helper for C2: the per-key loop errors as soon as some source key
lacks the compiled marker while `compile_mode` is set. -/
theorem processItems_error_of_bad_key (sd : List (String × Tensor)) :
    ∀ acc : StateDict, (∃ p ∈ sd, keyHead p.1 ≠ compileState) →
      processItems true sd acc = Except.error compileErrMsg := by
  induction sd with
  | nil =>
    intro acc h
    rcases h with ⟨p, hp, _⟩
    simp at hp
  | cons q rest ih =>
    intro acc h
    obtain ⟨k, v⟩ := q
    by_cases hk : keyHead k ≠ compileState
    · simp [processItems, hk]
    · push_neg at hk
      rcases h with ⟨p, hp, hbad⟩
      rcases List.mem_cons.mp hp with rfl | hmem
      · exact absurd hk hbad
      · have hstep : processItems true ((k, v) :: rest) acc =
            processItems true rest (odInsert acc (renameKey true k) v) := by
          simp [processItems, hk]
        rw [hstep]
        exact ih _ ⟨p, hmem, hbad⟩

/-- C2: with `compile_mode = True` and some source key whose first
dot-separated token differs from the marker, `load_state_dict` raises the
configuration-mismatch `RuntimeError` instead of returning. -/
theorem load_state_dict_compiled_error (model_state_dict state_dict : StateDict)
    (h : ∃ p ∈ state_dict, keyHead p.1 ≠ compileState) :
    load_state_dict model_state_dict true state_dict = Except.error compileErrMsg := by
  unfold load_state_dict
  rw [processItems_error_of_bad_key state_dict [] h]

theorem load_state_dict_compiled_error_witness :
    (∃ p ∈ ([("conv.weight", ⟨[3], 0⟩)] : StateDict), keyHead p.1 ≠ compileState) ∧
    load_state_dict [("conv.weight", ⟨[3], 0⟩)] true [("conv.weight", ⟨[3], 0⟩)] =
      Except.error compileErrMsg :=
  ⟨by decide, load_state_dict_compiled_error _ _ (by decide)⟩

/-- Helper for C10: if the per-key loop returns without error under
`compile_mode = True`, every processed key carries the compiled marker. -/
theorem processItems_ok_marker (sd : List (String × Tensor)) :
    ∀ acc out : StateDict, processItems true sd acc = Except.ok out →
      ∀ p ∈ sd, keyHead p.1 = compileState := by
  induction sd with
  | nil =>
    intro acc out _ p hp
    simp at hp
  | cons q rest ih =>
    intro acc out h p hp
    obtain ⟨k, v⟩ := q
    by_cases hk : keyHead k ≠ compileState
    · rw [show processItems true ((k, v) :: rest) acc = Except.error compileErrMsg by
        simp [processItems, hk]] at h
      cases h
    · push_neg at hk
      rcases List.mem_cons.mp hp with rfl | hmem
      · exact hk
      · rw [show processItems true ((k, v) :: rest) acc =
            processItems true rest (odInsert acc (renameKey true k) v) by
          simp [processItems, hk]] at h
        exact ih _ _ h p hmem

/-- C10: whenever `load_state_dict` with `compile_mode = True` returns
without error, every source key starts with the compiled marker and the
renaming step left it unchanged, so the marker-prepending branch never
fires on a successful compiled load. -/
theorem load_state_dict_compiled_ok_identity (model_state_dict state_dict out : StateDict)
    (h : load_state_dict model_state_dict true state_dict = Except.ok out) :
    ∀ p ∈ state_dict, keyHead p.1 = compileState ∧ renameKey true p.1 = p.1 := by
  have hpi : ∃ renamed, processItems true state_dict [] = Except.ok renamed := by
    unfold load_state_dict at h
    cases hh : processItems true state_dict [] with
    | error e =>
      rw [hh] at h
      cases h
    | ok renamed => exact ⟨renamed, rfl⟩
  rcases hpi with ⟨renamed, hren⟩
  intro p hp
  have hpre := processItems_ok_marker state_dict [] renamed hren p hp
  refine ⟨hpre, ?_⟩
  unfold renameKey
  rw [if_neg (by simp [hpre]), if_neg (by simp)]

theorem load_state_dict_compiled_ok_identity_witness :
    (load_state_dict [("_orig_mod.a", ⟨[3], 0⟩)] true [("_orig_mod.a", ⟨[3], 1⟩)] =
      Except.ok [("_orig_mod.a", ⟨[3], 1⟩)]) ∧
    (∀ p ∈ ([("_orig_mod.a", ⟨[3], 1⟩)] : StateDict),
      keyHead p.1 = compileState ∧ renameKey true p.1 = p.1) :=
  ⟨by decide,
    load_state_dict_compiled_ok_identity [("_orig_mod.a", ⟨[3], 0⟩)]
      [("_orig_mod.a", ⟨[3], 1⟩)] [("_orig_mod.a", ⟨[3], 1⟩)] (by decide)⟩

/-- Lookup after an OrderedDict assignment: the assigned key reads back the
new value, every other key is unaffected. -/
theorem dlookup_odInsert (d : StateDict) (k : String) (v : Tensor) (k1 : String) :
    dlookup (odInsert d k v) k1 = if k = k1 then some v else dlookup d k1 := by
  induction d with
  | nil => by_cases h : k = k1 <;> simp [odInsert, dlookup, h]
  | cons a rest ih =>
    obtain ⟨k2, v2⟩ := a
    by_cases h2 : k2 = k
    · subst h2
      simp only [odInsert, if_pos rfl, dlookup]
      by_cases h1 : k2 = k1 <;> simp [h1]
    · simp only [odInsert, if_neg h2, dlookup]
      by_cases h1 : k2 = k1
      · subst h1
        rw [if_pos rfl, if_neg (fun hh => h2 hh.symm), if_pos rfl]
      · rw [if_neg h1, if_neg h1, ih]

/-- A key absent from the key list looks up to nothing. -/
theorem dlookup_eq_none (d : StateDict) (k : String) (h : k ∉ d.map Prod.fst) :
    dlookup d k = none := by
  induction d with
  | nil => rfl
  | cons a rest ih =>
    obtain ⟨k2, v2⟩ := a
    simp only [List.map_cons, List.mem_cons] at h
    push_neg at h
    simp only [dlookup]
    rw [if_neg (fun hh => h.1 hh.symm)]
    exact ih h.2

/-- Lookup in `d.update(items)` for duplicate-free `items`: an item key
reads its item value, every other key keeps the value it had in `d`. -/
theorem dlookup_dictUpdate (items : List (String × Tensor)) :
    ∀ (d : StateDict) (k : String), (items.map Prod.fst).Nodup →
      dlookup (dictUpdate d items) k =
        match dlookup items k with
        | some v => some v
        | none => dlookup d k := by
  induction items with
  | nil => intro d k _; rfl
  | cons q rest ih =>
    intro d k hnd
    obtain ⟨k2, v2⟩ := q
    rw [List.map_cons] at hnd
    have hnd1 := List.nodup_cons.mp hnd
    have hstep : dictUpdate d ((k2, v2) :: rest) = dictUpdate (odInsert d k2 v2) rest := rfl
    rw [hstep, ih (odInsert d k2 v2) k hnd1.2]
    by_cases h1 : k2 = k
    · subst h1
      rw [dlookup_eq_none rest k2 hnd1.1, dlookup_odInsert]
      simp [dlookup]
    · rw [dlookup_odInsert]
      simp [dlookup, h1]

/-- Lookup in a filtered dict with duplicate-free keys: the entry survives
exactly when the predicate accepts it. -/
theorem dlookup_filter (p : String × Tensor → Bool) (sd : List (String × Tensor)) :
    ∀ k : String, (sd.map Prod.fst).Nodup →
      dlookup (sd.filter p) k =
        match dlookup sd k with
        | some v => if p (k, v) then some v else none
        | none => none := by
  induction sd with
  | nil => intro k _; rfl
  | cons q rest ih =>
    intro k hnd
    obtain ⟨k2, v2⟩ := q
    rw [List.map_cons] at hnd
    have hnd1 := List.nodup_cons.mp hnd
    by_cases hp : p (k2, v2) = true
    · rw [List.filter_cons_of_pos hp]
      by_cases h1 : k2 = k
      · subst h1
        simp [dlookup, hp]
      · simp only [dlookup, if_neg h1]
        exact ih k hnd1.2
    · rw [List.filter_cons_of_neg (by simpa using hp)]
      by_cases h1 : k2 = k
      · subst h1
        have hnone : dlookup (rest.filter p) k2 = none := by
          apply dlookup_eq_none
          intro hmem
          rcases List.mem_map.mp hmem with ⟨q, hq, hq1⟩
          exact hnd1.1 (List.mem_map.mpr ⟨q, List.mem_of_mem_filter hq, hq1⟩)
        rw [hnone]
        simp [dlookup, hp]
      · rw [ih k hnd1.2]
        simp [dlookup, h1]

/-- With `compile_mode = False` and no marker-headed key, the per-key loop
never errors and only folds the unchanged pairs into the accumulator. -/
theorem processItems_false_eq (sd : List (String × Tensor)) :
    ∀ acc : StateDict, (∀ p ∈ sd, keyHead p.1 ≠ compileState) →
      processItems false sd acc =
        Except.ok (sd.foldl (fun a p => odInsert a p.1 p.2) acc) := by
  induction sd with
  | nil => intro acc _; rfl
  | cons q rest ih =>
    intro acc hpre
    obtain ⟨k, v⟩ := q
    have hk : keyHead k ≠ compileState := hpre (k, v) (List.mem_cons_self _ _)
    have hrn : renameKey false k = k := by
      unfold renameKey
      rw [if_neg (by simp), if_neg (by simp [hk])]
    have hstep : processItems false ((k, v) :: rest) acc =
        processItems false rest (odInsert acc (renameKey false k) v) := by
      simp [processItems]
    rw [hstep, hrn, ih _ (fun p hp => hpre p (List.mem_cons_of_mem _ hp))]
    rfl

/-- Assigning an absent key appends the pair at the end. -/
theorem odInsert_of_not_mem (d : StateDict) (k : String) (v : Tensor)
    (h : k ∉ d.map Prod.fst) : odInsert d k v = d ++ [(k, v)] := by
  induction d with
  | nil => rfl
  | cons a rest ih =>
    obtain ⟨k2, v2⟩ := a
    simp only [List.map_cons, List.mem_cons] at h
    push_neg at h
    simp only [odInsert]
    rw [if_neg (fun hh => h.1 hh.symm), ih h.2]
    simp

/-- Folding duplicate-free fresh pairs into a dict appends them in order. -/
theorem foldl_odInsert_append (sd : List (String × Tensor)) :
    ∀ acc : StateDict, (sd.map Prod.fst).Nodup →
      (∀ p ∈ sd, p.1 ∉ acc.map Prod.fst) →
      sd.foldl (fun a p => odInsert a p.1 p.2) acc = acc ++ sd := by
  induction sd with
  | nil => intro acc _ _; simp
  | cons q rest ih =>
    intro acc hnd hdisj
    obtain ⟨k, v⟩ := q
    rw [List.map_cons] at hnd
    have hnd1 := List.nodup_cons.mp hnd
    have h1 : k ∉ acc.map Prod.fst := hdisj (k, v) (List.mem_cons_self _ _)
    have hstep : ((k, v) :: rest).foldl (fun a p => odInsert a p.1 p.2) acc =
        rest.foldl (fun a p => odInsert a p.1 p.2) (odInsert acc k v) := rfl
    rw [hstep, odInsert_of_not_mem acc k v h1, ih (acc ++ [(k, v)]) hnd1.2 ?fresh]
    · simp
    case fresh =>
      intro p hp
      simp only [List.map_append, List.mem_append]
      rintro (hmem | hmem)
      · exact hdisj p (List.mem_cons_of_mem _ hp) hmem
      · simp only [List.map_cons, List.map_nil, List.mem_singleton] at hmem
        exact hnd1.1 (List.mem_map.mpr ⟨p, hp, hmem⟩)

/-- C1: with `compile_mode = False` and a source dict (duplicate-free, as
any dict) none of whose keys starts with the compiled marker, the renaming
loop returns the source unchanged, and the merged result keeps from the
source exactly the entries whose key exists in the target with the same
shape, every other target key retaining its pre-load value and no key
outside the target appearing. -/
theorem load_state_dict_uncompiled_spec (model_state_dict state_dict : StateDict)
    (hs : (state_dict.map Prod.fst).Nodup)
    (hpre : ∀ p ∈ state_dict, keyHead p.1 ≠ compileState) :
    processItems false state_dict [] = Except.ok state_dict ∧
    ∃ m, load_state_dict model_state_dict false state_dict = Except.ok m ∧
      ∀ k, dlookup m k =
        match dlookup state_dict k, dlookup model_state_dict k with
        | some v, some t => if v.size = t.size then some v else some t
        | _, _ => dlookup model_state_dict k := by
  have hid : processItems false state_dict [] = Except.ok state_dict := by
    rw [processItems_false_eq state_dict [] hpre,
      foldl_odInsert_append state_dict [] hs (by simp)]
    rfl
  refine ⟨hid, ?_⟩
  unfold load_state_dict
  rw [hid]
  refine ⟨_, rfl, ?_⟩
  intro k
  have hfnd : ((state_dict.filter (fun p =>
      match dlookup model_state_dict p.1 with
      | some t => p.2.size == t.size
      | none => false)).map Prod.fst).Nodup :=
    List.Nodup.sublist ((List.filter_sublist _).map _) hs
  rw [dlookup_dictUpdate _ _ _ hfnd, dlookup_filter _ state_dict k hs]
  cases hv : dlookup state_dict k with
  | none => rfl
  | some v =>
    cases ht2 : dlookup model_state_dict k with
    | none => simp [ht2]
    | some t =>
      by_cases hsz : v.size = t.size
      · simp [ht2, hsz]
      · simp [ht2, hsz]

theorem load_state_dict_uncompiled_spec_witness :
    (((([("a", ⟨[3], 1⟩), ("b", ⟨[5], 2⟩)] : StateDict)).map Prod.fst).Nodup ∧
      (∀ p ∈ ([("a", ⟨[3], 1⟩), ("b", ⟨[5], 2⟩)] : StateDict),
        keyHead p.1 ≠ compileState)) ∧
    (processItems false [("a", ⟨[3], 1⟩), ("b", ⟨[5], 2⟩)] [] =
        Except.ok [("a", ⟨[3], 1⟩), ("b", ⟨[5], 2⟩)] ∧
      ∃ m, load_state_dict [("a", ⟨[3], 0⟩)] false
          [("a", ⟨[3], 1⟩), ("b", ⟨[5], 2⟩)] = Except.ok m ∧
        ∀ k, dlookup m k =
          match dlookup [("a", ⟨[3], 1⟩), ("b", ⟨[5], 2⟩)] k,
              dlookup [("a", ⟨[3], 0⟩)] k with
          | some v, some t => if v.size = t.size then some v else some t
          | _, _ => dlookup [("a", ⟨[3], 0⟩)] k) :=
  ⟨⟨by decide, by decide⟩,
    load_state_dict_uncompiled_spec [("a", ⟨[3], 0⟩)]
      [("a", ⟨[3], 1⟩), ("b", ⟨[5], 2⟩)] (by decide) (by decide)⟩
